import Mathlib

/-!
Verification of the hexagon game core (game-state / motion / collision model
and the tween scheduler).

Modelling conventions:
* Rust `f32` values are modelled as exact rationals (`ℚ`); the algorithms use
  only +, -, *, /, comparisons, `min`, so the control flow is faithfully
  reproduced over exact arithmetic.
* Rust `std::time::Duration` is modelled as a `Nat` of nanoseconds;
  `as_millis` is `/ 1000000` and `as_micros` is `/ 1000` (truncating natural
  division, as in Rust).
* The `while` loop of `GameState::get_slot_idx_at_position` is modelled as a
  fuel recursion with fuel = number of slots; both a failure of the trailing
  `assert!(s < slots.len())` and divergence / an exit beyond the ring are
  mapped to `none` (the Rust code panics or loops in exactly those cases).
* Fallible code (panics) returns `Option`.
-/

namespace Hexagon

/-! ### Constants (src/constants.rs) -/

def INNER_HEXAGON_Y : ℚ := 25/1000
def OUTER_HEXAGON_Y : ℚ := 3/100
def CURSOR_Y : ℚ := 35/1000
def CURSOR_W : ℚ := 5/100
def CURSOR_H : ℚ := 8/1000
def FLASH_DURATION : Nat := 100000000
def GOD_MODE : Bool := false
def TARGET_TICK_TIME : ℚ := 167/10

/-! ### Model (src/model.rs) -/

structure Obstacle where
  its_distance : ℚ
  its_height : ℚ
deriving DecidableEq

def Obstacle.new (the_height : ℚ) : Obstacle :=
  { its_distance := 0, its_height := the_height }

def Obstacle.get_height (ob : Obstacle) : ℚ := ob.its_height

def Obstacle.get_distance (ob : Obstacle) : ℚ := ob.its_distance

structure Slot where
  its_width : ℚ
  its_obstacles : List Obstacle
deriving DecidableEq

/-- Out-of-bounds slot indexing panics in Rust; the claims only exercise
in-bounds accesses, so the `getD` default is never reached there. -/
instance : Inhabited Slot := ⟨{ its_width := 0, its_obstacles := [] }⟩

def Slot.new : Slot := { its_width := 1, its_obstacles := [] }

def Slot.get_width (s : Slot) : ℚ := s.its_width

def Slot.get_obstacles (s : Slot) : List Obstacle := s.its_obstacles

def Slot.add_obstacle (s : Slot) (the_obstacle : Obstacle) : Slot :=
  { s with its_obstacles := s.its_obstacles ++ [the_obstacle] }

structure Color where
  its_r : ℚ
  its_g : ℚ
  its_b : ℚ
  its_a : ℚ
deriving DecidableEq

def Color.rgba (the_r the_g the_b the_a : ℚ) : Color :=
  { its_r := the_r, its_g := the_g, its_b := the_b, its_a := the_a }

/-- `glm::Vec2` modelled as a pair of rationals. -/
def Vec2 : Type := ℚ × ℚ

instance : DecidableEq Vec2 := instDecidableEqProd

def Vec2.new (x y : ℚ) : Vec2 := (x, y)

structure Style where
  its_cursor_color : Color
  its_cursor_shadow_color : Color
  its_inner_hexagon_color : Color
  its_outer_hexagon_color : Color
  its_obstacle_color : Color
  its_slot_colors : List Color
  its_rotation : ℚ
  its_zoom : ℚ
  its_eye : Vec2
  its_look_at : Vec2
  its_flash_time : Nat
deriving DecidableEq

def Style.new : Style :=
  { its_cursor_color := Color.rgba 0 0 1 1
    its_cursor_shadow_color := Color.rgba 0 0 0 0
    its_inner_hexagon_color := Color.rgba 0 0 0 1
    its_outer_hexagon_color := Color.rgba 1 0 0 1
    its_obstacle_color := Color.rgba 0 1 0 1
    its_slot_colors := [Color.rgba 1 0 0 1, Color.rgba 1 1 1 1]
    its_rotation := 0
    its_zoom := 1
    its_eye := Vec2.new 0 0
    its_look_at := Vec2.new 0 0
    its_flash_time := 0 }

def Style.set_zoom (st : Style) (the_zoom : ℚ) : Style :=
  { st with its_zoom := the_zoom }

structure GameState where
  its_player_position : ℚ
  its_player_speed : ℚ
  its_obstacle_speed : ℚ
  its_slots : List Slot
  its_style : Style
  its_is_running : Bool
deriving DecidableEq

/-- `GameState::new`; the Rust field is a fixed array `[Slot; 6]`, modelled as
a 6-element list. -/
def GameState.new : GameState :=
  { its_player_position := 1/12
    its_player_speed := 3/100
    its_obstacle_speed := 5/1000
    its_slots := [Slot.new, Slot.new, Slot.new, Slot.new, Slot.new, Slot.new]
    its_style := Style.new
    its_is_running := true }

def GameState.get_position (g : GameState) : ℚ := g.its_player_position

def GameState.set_position (g : GameState) (the_position : ℚ) : GameState :=
  { g with its_player_position := the_position }

def GameState.get_player_speed (g : GameState) : ℚ := g.its_player_speed

def GameState.get_slots (g : GameState) : List Slot := g.its_slots

def GameState.get_slot_width_sum (g : GameState) : ℚ :=
  g.its_slots.foldl (fun the_acc the_slot => the_acc + the_slot.get_width) 0

def GameState.is_running (g : GameState) : Bool := g.its_is_running

/-- The `while x <= position * slot_width_sum` loop of
`GameState::get_slot_idx_at_position`, as a fuel recursion.  `x` is the
accumulated right border, `s` the current slot index; one unit of fuel is one
evaluation of the loop condition. -/
def slotWalk (slots : List Slot) (target : ℚ) : Nat → ℚ → Nat → Option Nat
  | 0, _, _ => none
  | fuel+1, x, s =>
    if x ≤ target then
      slotWalk slots target fuel
        (x + (slots.getD ((s + 1) % slots.length) default).get_width) (s + 1)
    else
      some s

/-- `GameState::get_slot_idx_at_position`.  The fuel `slots.length` covers the
loop-condition checks for `s = 0, …, len-1`; if the walk is still running
beyond that, the Rust loop either exits with `s ≥ len` (and the trailing
`assert!` panics) or never exits — both are `none` here, as is an assertion
failure after a regular exit. -/
def GameState.get_slot_idx_at_position (g : GameState) (the_position : ℚ) : Option Nat :=
  let slots := g.get_slots
  let slot_width_sum := g.get_slot_width_sum
  match slotWalk slots (the_position * slot_width_sum) slots.length
      ((slots.getD 0 default).get_width) 0 with
  | some s => if s < slots.length then some s else none
  | none => none

def GameState.get_current_slot_idx (g : GameState) : Option Nat :=
  g.get_slot_idx_at_position g.its_player_position

/-! ### Controls (src/controls.rs) -/

def LEFT_KEY : Nat := 105
def RIGHT_KEY : Nat := 106

structure Controls where
  its_keys : List Nat
  its_new_keys : List Nat
deriving DecidableEq

def Controls.new : Controls := { its_keys := [], its_new_keys := [] }

def Controls.key_pressed (c : Controls) (the_scancode : Nat) : Controls :=
  { its_keys := c.its_keys ++ [the_scancode]
    its_new_keys := c.its_new_keys ++ [the_scancode] }

def Controls.key_released (c : Controls) (the_scancode : Nat) : Controls :=
  { c with its_keys := c.its_keys.filter (fun k => k ≠ the_scancode) }

/-- `let effect = the_delta.as_millis() as f32 / constants::TARGET_TICK_TIME`:
the delta (nanoseconds) is truncated to whole milliseconds first. -/
def effectFactor (the_delta : Nat) : ℚ :=
  ((the_delta / 1000000 : Nat) : ℚ) / TARGET_TICK_TIME

/-- The wrap correction applied to the candidate position: subtract 1 if it is
`≥ 1`, add 1 if it is `< 0`. -/
def wrap01 (newpos : ℚ) : ℚ :=
  newpos + (if newpos ≥ 1 then -1 else if newpos < 0 then 1 else 0)

/-- The wrapped candidate position `newpos` computed by `Controls::tick`
before the collision check (`sign` is `-1` for left, `1` for right). -/
def candidatePos (g : GameState) (left : Bool) (the_delta : Nat) : ℚ :=
  wrap01 (g.get_position + g.get_player_speed * effectFactor the_delta *
    (if left then -1 else 1))

/-- The collision test of `Controls::tick`: the cursor tip
`CURSOR_Y + CURSOR_H` lies in the obstacle's interval
`[distance, distance + height)`. -/
def collidesCursorTip (ob : Obstacle) : Bool :=
  decide (ob.get_distance ≤ CURSOR_Y + CURSOR_H) &&
    decide (CURSOR_Y + CURSOR_H < ob.get_distance + ob.get_height)

/-- Cumulative width of the slots with index strictly below `n` (the
`filter (idx < s) … fold` of the collision branch, written with `take`). -/
def widthBelow (slots : List Slot) (n : Nat) : ℚ :=
  (slots.take n).foldl (fun acc sl => acc + sl.get_width) 0

/-- `Controls::tick`.  Returns `none` exactly when the Rust code panics
(inside `get_slot_idx_at_position`).  The new-keys queue is drained, the
running flag and the key guard are checked, the candidate position is wrapped,
and the first colliding obstacle of the destination slot (if any) triggers the
snap to the current slot's boundary. -/
def Controls.tick (c : Controls) (the_game : GameState) (the_delta : Nat) :
    Option (Controls × GameState) :=
  let c1 : Controls := { c with its_new_keys := [] }
  if !the_game.is_running then some (c1, the_game)
  else
    let left := c.its_keys.contains LEFT_KEY
    let right := c.its_keys.contains RIGHT_KEY
    if (left || right) && !(left && right) then
      let newpos := candidatePos the_game left the_delta
      let slots := the_game.get_slots
      let slot_width_sum := the_game.get_slot_width_sum
      match the_game.get_slot_idx_at_position newpos with
      | none => none
      | some s =>
        let target_slot := slots.getD s default
        match target_slot.get_obstacles.find? collidesCursorTip with
        | some _ =>
          match the_game.get_current_slot_idx with
          | none => none
          | some cur =>
            let pos_in_slot :=
              if right then
                widthBelow slots cur + (slots.getD cur default).get_width - 1/10000
              else
                widthBelow slots cur
            some (c1, the_game.set_position (pos_in_slot / slot_width_sum))
        | none => some (c1, the_game.set_position newpos)
    else
      some (c1, the_game)

/-- A concrete fixture used by a witness: the default state at player speed
1/5, with an obstacle of height 1/20 (covering the cursor tip) in slot 1. -/
def gCollision : GameState :=
  { GameState.new with
    its_player_speed := 1/5
    its_slots := [Slot.new, Slot.add_obstacle Slot.new (Obstacle.new (1/20)),
      Slot.new, Slot.new, Slot.new, Slot.new] }

/-! ### Tween engine (src/app.rs) -/

structure TweenInfo where
  its_duration : Nat
  its_progress : Nat
  its_cooldown : Nat
  its_repetitions : Int
deriving DecidableEq

def TweenInfo.new (the_duration the_cooldown : Nat) (the_repetitions : Int) : TweenInfo :=
  { its_duration := the_duration
    its_progress := 0
    its_cooldown := the_cooldown
    its_repetitions := the_repetitions }

/-- The fraction passed to `Tween::run`:
`(progress.as_micros() as f32 / duration.as_micros() as f32).min(1.)`. -/
def tweenFraction (duration progress : Nat) : ℚ :=
  min (((progress / 1000 : Nat) : ℚ) / ((duration / 1000 : Nat) : ℚ)) 1

/-- One iteration of the `TweenEngine::tick` loop body for a non-exhausted
entry: accumulate the delta, invoke the effect when
`progress <= duration + delta` (the returned `Option ℚ` is the fraction passed
to the effect), and reset / decrement when
`progress >= duration + cooldown`. -/
def tweenStep (the_delta : Nat) (st : TweenInfo) : TweenInfo × Option ℚ :=
  let p := st.its_progress + the_delta
  let inv : Option ℚ :=
    if p ≤ st.its_duration + the_delta then
      some (tweenFraction st.its_duration p)
    else
      none
  let st2 : TweenInfo :=
    if st.its_duration + st.its_cooldown ≤ p then
      { st with
        its_progress := 0
        its_repetitions :=
          if 0 < st.its_repetitions then st.its_repetitions - 1
          else st.its_repetitions }
    else
      { st with its_progress := p }
  (st2, inv)

/-- `TweenEngine::tick` over the registration-ordered entry list.  Returns the
updated entries together with, for each processed entry, the fraction its
effect was invoked with (or `none` for an entry whose invocation guard
failed).  An entry with `repetitions == 0` makes the whole tick return
immediately, leaving it and every later entry unprocessed. -/
def engineTick (the_delta : Nat) : List TweenInfo → List TweenInfo × List (Option ℚ)
  | [] => ([], [])
  | st :: rest =>
    if st.its_repetitions = 0 then (st :: rest, [])
    else
      let stepped := tweenStep the_delta st
      let tail := engineTick the_delta rest
      (stepped.1 :: tail.1, stepped.2 :: tail.2)

/-- The state part of one engine tick (for iterating ticks). -/
def engineStates (the_delta : Nat) (l : List TweenInfo) : List TweenInfo :=
  (engineTick the_delta l).1

/-- Repeated ticks of a single tween entry (a one-entry engine, or
equivalently the per-entry state evolution), recording each step's
invocation. -/
def runTween (st : TweenInfo) : List Nat → TweenInfo × List (Option ℚ)
  | [] => (st, [])
  | d :: ds =>
    let stepped := tweenStep d st
    let rest := runTween stepped.1 ds
    (rest.1, stepped.2 :: rest.2)

/-- The fractions actually passed to the effect along a run. -/
def runFracs (st : TweenInfo) (ds : List Nat) : List ℚ :=
  ((runTween st ds).2).filterMap id

/-! ### Helper lemmas: prefix width sums and the slot-walk loop -/

lemma foldl_width (l : List Slot) (a : ℚ) :
    l.foldl (fun acc sl => acc + sl.get_width) a = a + (l.map Slot.get_width).sum := by
  induction l generalizing a with
  | nil => simp
  | cons x t ih => simp [List.foldl, ih]; ring

lemma widthBelow_eq_sum (slots : List Slot) (n : Nat) :
    widthBelow slots n = ((slots.take n).map Slot.get_width).sum := by
  simp [widthBelow, foldl_width]

@[simp]
lemma widthBelow_zero (slots : List Slot) : widthBelow slots 0 = 0 := by
  simp [widthBelow]

lemma widthBelow_succ (slots : List Slot) (n : Nat) (hn : n < slots.length) :
    widthBelow slots (n + 1) =
      widthBelow slots n + (slots.getD n default).get_width := by
  have htake : slots.take (n + 1) = slots.take n ++ [slots[n]] := by
    rw [List.take_succ, List.getElem?_eq_getElem hn]
    rfl
  rw [widthBelow_eq_sum, widthBelow_eq_sum, htake,
    List.getD_eq_getElem slots default hn, List.map_append, List.sum_append,
    List.map_singleton, List.sum_singleton]

lemma slot_width_sum_eq (g : GameState) :
    g.get_slot_width_sum = widthBelow g.its_slots g.its_slots.length := by
  simp [GameState.get_slot_width_sum, widthBelow, List.take_length]

lemma widthBelow_mono (slots : List Slot)
    (hw : ∀ sl ∈ slots, 0 ≤ sl.its_width) :
    ∀ m n, m ≤ n → n ≤ slots.length → widthBelow slots m ≤ widthBelow slots n := by
  intro m n hmn hn
  induction n with
  | zero => simp_all
  | succ p ih =>
    rcases Nat.lt_or_ge m (p + 1) with hlt | hge
    · have hstep : widthBelow slots (p + 1) =
          widthBelow slots p + (slots.getD p default).get_width :=
        widthBelow_succ slots p (by omega)
      have hmem : slots.getD p default ∈ slots := by
        have hp : p < slots.length := by omega
        have := List.getD_eq_getElem slots default hp
        rw [this]
        exact List.getElem_mem hp
      have hnn : 0 ≤ (slots.getD p default).get_width := hw _ hmem
      have := ih (by omega) (by omega)
      rw [hstep]
      linarith [this]
    · have : m = p + 1 := by omega
      subst this
      exact le_refl _

lemma slotWalk_spec (slots : List Slot) (t : ℚ) (k : Nat)
    (hk : k < slots.length)
    (hgt : t < widthBelow slots (k + 1))
    (hle : ∀ j, j < k → widthBelow slots (j + 1) ≤ t) :
    ∀ fuel s, s + fuel = slots.length → s ≤ k →
      slotWalk slots t fuel (widthBelow slots (s + 1)) s = some k := by
  intro fuel
  induction fuel with
  | zero => intro s hs hsk; omega
  | succ f ih =>
    intro s hs hsk
    rcases eq_or_lt_of_le hsk with heq | hlt
    · subst heq
      simp only [slotWalk]
      rw [if_neg (by exact not_le.mpr hgt)]
    · simp only [slotWalk]
      rw [if_pos (hle s hlt)]
      have hmod : (s + 1) % slots.length = s + 1 := Nat.mod_eq_of_lt (by omega)
      rw [hmod, ← widthBelow_succ slots (s + 1) (by omega)]
      exact ih (s + 1) (by omega) (by omega)

/-- The slot lookup returns `some k` as soon as `k` is the first index whose
right border strictly exceeds the normalized target position. -/
lemma get_slot_idx_eq (g : GameState) (pos : ℚ) (k : Nat)
    (hk : k < g.its_slots.length)
    (hgt : pos * g.get_slot_width_sum < widthBelow g.its_slots (k + 1))
    (hle : ∀ j, j < k → widthBelow g.its_slots (j + 1) ≤ pos * g.get_slot_width_sum) :
    g.get_slot_idx_at_position pos = some k := by
  unfold GameState.get_slot_idx_at_position
  have hlen : 0 < g.its_slots.length := by omega
  have h0 : (g.get_slots.getD 0 default).get_width = widthBelow g.its_slots (0 + 1) := by
    rw [widthBelow_succ g.its_slots 0 hlen]
    simp [GameState.get_slots]
  have hwalk := slotWalk_spec g.its_slots (pos * g.get_slot_width_sum) k hk hgt hle
    g.its_slots.length 0 (by omega) (by omega)
  simp only [GameState.get_slots] at h0 ⊢
  rw [h0, hwalk]
  simp [hk]

lemma get_slot_idx_lt (g : GameState) (pos : ℚ) (k : Nat)
    (h : g.get_slot_idx_at_position pos = some k) : k < g.its_slots.length := by
  unfold GameState.get_slot_idx_at_position at h
  rcases hwalk : slotWalk g.get_slots (pos * g.get_slot_width_sum) g.get_slots.length
      ((g.get_slots.getD 0 default).get_width) 0 with _ | s
  · simp only [hwalk] at h
    exact Option.noConfusion h
  · simp only [hwalk] at h
    by_cases hs : s < g.get_slots.length
    · simp [hs] at h
      simpa [GameState.get_slots, ← h] using hs
    · simp [hs] at h

/-! ### Helper lemmas: unit-width tracks -/

lemma widthBelow_units (slots : List Slot)
    (hmap : slots.map Slot.get_width = [1, 1, 1, 1, 1, 1]) :
    ∀ m, m ≤ 6 → widthBelow slots m = m := by
  intro m hm
  rw [widthBelow_eq_sum, List.map_take, hmap]
  interval_cases m <;> simp <;> norm_num

lemma units_length (slots : List Slot)
    (hmap : slots.map Slot.get_width = [1, 1, 1, 1, 1, 1]) : slots.length = 6 := by
  have := congrArg List.length hmap
  simpa using this

lemma units_width_sum (g : GameState)
    (hmap : g.its_slots.map Slot.get_width = [1, 1, 1, 1, 1, 1]) :
    g.get_slot_width_sum = 6 := by
  rw [slot_width_sum_eq, units_length g.its_slots hmap]
  exact_mod_cast widthBelow_units g.its_slots hmap 6 le_rfl

/-- On a track of six unit-width slots the lookup maps `x ∈ [0,1)` to
`⌊x * 6⌋`. -/
lemma unit_slot_idx (g : GameState)
    (hmap : g.its_slots.map Slot.get_width = [1, 1, 1, 1, 1, 1])
    (x : ℚ) (h0 : 0 ≤ x) (h1 : x < 1) :
    g.get_slot_idx_at_position x = some (⌊x * 6⌋.toNat) ∧ ⌊x * 6⌋.toNat < 6 := by
  have hlen : g.its_slots.length = 6 := units_length g.its_slots hmap
  have hsum : g.get_slot_width_sum = 6 := units_width_sum g hmap
  have hx0 : (0 : ℚ) ≤ x * 6 := by positivity
  have hx6 : x * 6 < 6 := by nlinarith
  have hfl0 : 0 ≤ ⌊x * 6⌋ := Int.floor_nonneg.mpr hx0
  have hfl6 : ⌊x * 6⌋ < 6 := Int.floor_lt.mpr (by exact_mod_cast hx6)
  have hklt : ⌊x * 6⌋.toNat < 6 := by omega
  have hcast : ((⌊x * 6⌋.toNat : ℕ) : ℚ) = (⌊x * 6⌋ : ℚ) := by
    exact_mod_cast Int.toNat_of_nonneg hfl0
  have hlow : ((⌊x * 6⌋.toNat : ℕ) : ℚ) ≤ x * 6 := by
    rw [hcast]; exact Int.floor_le _
  have hhigh : x * 6 < ((⌊x * 6⌋.toNat : ℕ) : ℚ) + 1 := by
    rw [hcast]; exact Int.lt_floor_add_one _
  refine ⟨get_slot_idx_eq g x ⌊x * 6⌋.toNat (by omega) ?_ ?_, hklt⟩
  · rw [hsum, widthBelow_units g.its_slots hmap (⌊x * 6⌋.toNat + 1) (by omega)]
    push_cast
    linarith
  · intro j hj
    rw [hsum, widthBelow_units g.its_slots hmap (j + 1) (by omega)]
    have : ((j : ℚ) + 1) ≤ ((⌊x * 6⌋.toNat : ℕ) : ℚ) := by exact_mod_cast hj
    push_cast
    linarith

/-! ### Helper lemmas: tween steps and runs -/

lemma tweenStep_fst (d : Nat) (st : TweenInfo) :
    (tweenStep d st).1 =
      if st.its_duration + st.its_cooldown ≤ st.its_progress + d then
        { st with
          its_progress := 0
          its_repetitions :=
            if 0 < st.its_repetitions then st.its_repetitions - 1
            else st.its_repetitions }
      else
        { st with its_progress := st.its_progress + d } := rfl

lemma tweenStep_snd (d : Nat) (st : TweenInfo) :
    (tweenStep d st).2 =
      if st.its_progress + d ≤ st.its_duration + d then
        some (tweenFraction st.its_duration (st.its_progress + d))
      else
        none := rfl

lemma tweenFraction_le_one (dur p : Nat) : tweenFraction dur p ≤ 1 :=
  min_le_right _ _

lemma tweenFraction_mono (dur : Nat) {p q : Nat} (h : p ≤ q) :
    tweenFraction dur p ≤ tweenFraction dur q := by
  unfold tweenFraction
  refine min_le_min ?_ le_rfl
  have hn : ((p / 1000 : ℕ) : ℚ) ≤ ((q / 1000 : ℕ) : ℚ) := by
    exact_mod_cast Nat.div_le_div_right h
  exact div_le_div_of_nonneg_right hn (by positivity)

lemma tweenFraction_eq_one (dur p : Nat) (hdur : 0 < dur / 1000) (h : dur ≤ p) :
    tweenFraction dur p = 1 := by
  unfold tweenFraction
  apply min_eq_right
  have hc : (0 : ℚ) < ((dur / 1000 : ℕ) : ℚ) := by exact_mod_cast hdur
  rw [le_div_iff₀ hc, one_mul]
  exact_mod_cast Nat.div_le_div_right h

lemma runFracs_cons (st : TweenInfo) (d : Nat) (ds : List Nat) :
    runFracs st (d :: ds) =
      ((tweenStep d st).2).toList ++ runFracs (tweenStep d st).1 ds := by
  simp only [runFracs, runTween, List.filterMap_cons]
  cases (tweenStep d st).2 <;> simp

lemma runFracs_nil (st : TweenInfo) : runFracs st [] = [] := rfl

/-- Within one cycle (no reset before the final step), the invoked fractions
are non-decreasing and bounded below by the fraction of the first step. -/
lemma runTween_chain : ∀ (ds : List Nat) (st : TweenInfo),
    st.its_progress + ds.dropLast.sum < st.its_duration + st.its_cooldown →
    List.Chain' (· ≤ ·) (runFracs st ds) ∧
      ∀ f ∈ runFracs st ds,
        tweenFraction st.its_duration (st.its_progress + ds.headD 0) ≤ f := by
  intro ds
  induction ds with
  | nil => intro st _; simp [runFracs_nil]
  | cons d rest ih =>
    intro st h
    cases rest with
    | nil =>
      rw [runFracs_cons]
      rcases hinv : (tweenStep d st).2 with _ | q
      · simp [runFracs_nil]
      · have hq : q = tweenFraction st.its_duration (st.its_progress + d) := by
          rw [tweenStep_snd] at hinv
          split_ifs at hinv with hc
          exact (Option.some_inj.mp hinv).symm
        simp [runFracs_nil, hq]
    | cons r rs =>
      have hsum : (List.dropLast (d :: r :: rs)).sum =
          d + (List.dropLast (r :: rs)).sum := by
        simp
      have hnr : st.its_progress + d < st.its_duration + st.its_cooldown := by
        have hs := List.sum_nonneg (l := List.dropLast (r :: rs)) (fun x _ => Nat.zero_le x)
        omega
      have hstep1 : (tweenStep d st).1 = { st with its_progress := st.its_progress + d } := by
        rw [tweenStep_fst, if_neg (by omega)]
      have hrec := ih (tweenStep d st).1 (by rw [hstep1]; simp only; omega)
      rw [hstep1] at hrec
      simp only at hrec
      obtain ⟨hchain, hbound⟩ := hrec
      rw [runFracs_cons, hstep1]
      rcases hinv : (tweenStep d st).2 with _ | q
      · refine ⟨by simpa using hchain, ?_⟩
        intro f hf
        simp only [Option.toList, List.nil_append] at hf
        have hb := hbound f hf
        have hmono : tweenFraction st.its_duration (st.its_progress + d) ≤
            tweenFraction st.its_duration (st.its_progress + d + r) :=
          tweenFraction_mono _ (by omega)
        simpa using hmono.trans hb
      · have hq : q = tweenFraction st.its_duration (st.its_progress + d) := by
          rw [tweenStep_snd] at hinv
          split_ifs at hinv with hc
          exact (Option.some_inj.mp hinv).symm
        simp only [Option.toList, List.singleton_append]
        constructor
        · rw [List.chain'_cons']
          refine ⟨?_, hchain⟩
          intro b hb
          have hbm : b ∈ runFracs { st with its_progress := st.its_progress + d } (r :: rs) :=
            List.mem_of_mem_head? hb
          have := hbound b hbm
          have hmono : tweenFraction st.its_duration (st.its_progress + d) ≤
              tweenFraction st.its_duration (st.its_progress + d + r) :=
            tweenFraction_mono _ (by omega)
          rw [hq]
          exact hmono.trans this
        · intro f hf
          rcases List.mem_cons.mp hf with hfq | hfm
          · rw [hfq, hq]
            exact le_rfl
          · have := hbound f hfm
            have hmono : tweenFraction st.its_duration (st.its_progress + d) ≤
                tweenFraction st.its_duration (st.its_progress + d + r) :=
              tweenFraction_mono _ (by omega)
            exact hmono.trans this

/-- As soon as the accumulated deltas reach the duration, the effect is
invoked with fraction exactly 1 (no reset can intervene earlier, because a
reset requires `progress ≥ duration + cooldown ≥ duration`). -/
lemma runTween_attains : ∀ (ds : List Nat) (st : TweenInfo),
    0 < st.its_duration / 1000 →
    st.its_progress < st.its_duration →
    st.its_duration ≤ st.its_progress + ds.sum →
    (1 : ℚ) ∈ runFracs st ds := by
  intro ds
  induction ds with
  | nil => intro st hdur hlt hge; simp at hge; omega
  | cons d rest ih =>
    intro st hdur hlt hge
    rw [runFracs_cons]
    have hinv : (tweenStep d st).2 =
        some (tweenFraction st.its_duration (st.its_progress + d)) := by
      rw [tweenStep_snd, if_pos (by omega)]
    rcases Nat.lt_or_ge (st.its_progress + d) st.its_duration with hless | hreach
    · have hstep1 : (tweenStep d st).1 = { st with its_progress := st.its_progress + d } := by
        rw [tweenStep_fst, if_neg (by omega)]
      have hmem := ih (tweenStep d st).1
        (by rw [hstep1]; exact hdur)
        (by rw [hstep1]; show st.its_progress + d < st.its_duration; exact hless)
        (by
          rw [hstep1]
          show st.its_duration ≤ st.its_progress + d + rest.sum
          simp at hge
          omega)
      rw [hinv]
      simp only [Option.toList, List.singleton_append]
      exact List.mem_cons_of_mem _ hmem
    · rw [hinv, tweenFraction_eq_one _ _ hdur hreach]
      simp

/-- Every fraction ever passed to an effect is at most 1. -/
lemma runTween_le_one : ∀ (ds : List Nat) (st : TweenInfo) (f : ℚ),
    f ∈ runFracs st ds → f ≤ 1 := by
  intro ds
  induction ds with
  | nil => intro st f hf; simp [runFracs_nil] at hf
  | cons d rest ih =>
    intro st f hf
    rw [runFracs_cons] at hf
    rcases hinv : (tweenStep d st).2 with _ | q
    · rw [hinv] at hf
      simp only [Option.toList, List.nil_append] at hf
      exact ih _ f hf
    · rw [hinv] at hf
      simp only [Option.toList, List.singleton_append] at hf
      rcases List.mem_cons.mp hf with hfq | hfm
      · have hq : q = tweenFraction st.its_duration (st.its_progress + d) := by
          rw [tweenStep_snd] at hinv
          split_ifs at hinv with hc
          exact (Option.some_inj.mp hinv).symm
        rw [hfq, hq]
        exact tweenFraction_le_one _ _
      · exact ih _ f hfm

/-! ### Helper lemmas: the engine loop and exhausted entries -/

lemma engineTick_exhausted (d : Nat) (ex : TweenInfo)
    (hex : ex.its_repetitions = 0) (post : List TweenInfo) :
    engineTick d (ex :: post) = (ex :: post, []) := by
  simp [engineTick, hex]

lemma engineTick_live_front (d : Nat) (ex : TweenInfo) (post : List TweenInfo)
    (hex : ex.its_repetitions = 0) :
    ∀ l1, (∀ e ∈ l1, e.its_repetitions ≠ 0) →
      engineTick d (l1 ++ ex :: post) =
        (l1.map (fun e => (tweenStep d e).1) ++ ex :: post,
          l1.map (fun e => (tweenStep d e).2)) := by
  intro l1
  induction l1 with
  | nil => intro _; simpa using engineTick_exhausted d ex hex post
  | cons a t ih =>
    intro hall
    have ha : a.its_repetitions ≠ 0 := hall a (by simp)
    have ht := ih (fun e he => hall e (by simp [he]))
    simp [engineTick, ha, ht]

lemma engineTick_suffix_preserved (d : Nat) (ex : TweenInfo) (post : List TweenInfo)
    (hex : ex.its_repetitions = 0) :
    ∀ l1, ∃ l2, (engineTick d (l1 ++ ex :: post)).1 = l2 ++ ex :: post ∧
      l2.length = l1.length := by
  intro l1
  induction l1 with
  | nil =>
    refine ⟨[], ?_, rfl⟩
    simp [engineTick_exhausted d ex hex post]
  | cons a t ih =>
    by_cases ha : a.its_repetitions = 0
    · exact ⟨a :: t, by simp [engineTick, ha], rfl⟩
    · obtain ⟨l2, hl2, hlen⟩ := ih
      exact ⟨(tweenStep d a).1 :: l2, by simp [engineTick, ha, hl2], by simp [hlen]⟩

lemma engineStates_iter_suffix (d : Nat) (ex : TweenInfo) (post : List TweenInfo)
    (hex : ex.its_repetitions = 0) :
    ∀ n l1, ∃ l2, (engineStates d)^[n] (l1 ++ ex :: post) = l2 ++ ex :: post ∧
      l2.length = l1.length := by
  intro n
  induction n with
  | zero => intro l1; exact ⟨l1, rfl, rfl⟩
  | succ m ih =>
    intro l1
    rw [Function.iterate_succ_apply]
    obtain ⟨l2, hl2, hlen2⟩ := engineTick_suffix_preserved d ex post hex l1
    obtain ⟨l3, hl3, hlen3⟩ := ih l2
    refine ⟨l3, ?_, by omega⟩
    rw [show engineStates d (l1 ++ ex :: post) = l2 ++ ex :: post from hl2, hl3]

lemma engineStates_exhausted_fixed (d : Nat) (ex : TweenInfo) (post : List TweenInfo)
    (hex : ex.its_repetitions = 0) :
    ∀ n, (engineStates d)^[n] (ex :: post) = ex :: post := by
  intro n
  induction n with
  | zero => rfl
  | succ m ih =>
    rw [Function.iterate_succ_apply, show engineStates d (ex :: post) = ex :: post from
      congrArg Prod.fst (engineTick_exhausted d ex hex post), ih]

/-- The single-step wrap keeps any candidate from `(-1, 2)` inside `[0,1)`. -/
lemma wrap01_mem (y : ℚ) (hlow : -1 < y) (hhigh : y < 2) : 0 ≤ wrap01 y ∧ wrap01 y < 1 := by
  unfold wrap01
  split_ifs <;> constructor <;> linarith

/-! ### Helper lemmas: evaluating the two committing branches of the tick -/

lemma tick_commit (c : Controls) (g : GameState) (delta : Nat)
    (left right : Bool)
    (hrun : g.is_running = true)
    (hL : c.its_keys.contains LEFT_KEY = left)
    (hR : c.its_keys.contains RIGHT_KEY = right)
    (hguard : ((left || right) && !(left && right)) = true)
    (s : Nat)
    (hidx : g.get_slot_idx_at_position (candidatePos g left delta) = some s)
    (hobs : ((g.its_slots.getD s default).get_obstacles).find? collidesCursorTip = none) :
    Controls.tick c g delta =
      some ({ c with its_new_keys := [] },
        g.set_position (candidatePos g left delta)) := by
  simp only [List.getD_eq_getElem?_getD] at hobs
  cases left <;> cases right
  · simp at hguard
  · have hL1 : ¬LEFT_KEY ∈ c.its_keys := by simpa using hL
    have hR1 : RIGHT_KEY ∈ c.its_keys := by simpa using hR
    simp [Controls.tick, GameState.get_slots, hrun, hidx, hobs, hL1, hR1]
  · have hL1 : LEFT_KEY ∈ c.its_keys := by simpa using hL
    have hR1 : ¬RIGHT_KEY ∈ c.its_keys := by simpa using hR
    simp [Controls.tick, GameState.get_slots, hrun, hidx, hobs, hL1, hR1]
  · simp at hguard

lemma tick_collision (c : Controls) (g : GameState) (delta : Nat)
    (left right : Bool)
    (hrun : g.is_running = true)
    (hL : c.its_keys.contains LEFT_KEY = left)
    (hR : c.its_keys.contains RIGHT_KEY = right)
    (hguard : ((left || right) && !(left && right)) = true)
    (s : Nat)
    (hidx : g.get_slot_idx_at_position (candidatePos g left delta) = some s)
    (hcol : (((g.its_slots.getD s default).get_obstacles).find? collidesCursorTip).isSome = true)
    (cur : Nat)
    (hcur : g.get_current_slot_idx = some cur) :
    Controls.tick c g delta =
      some ({ c with its_new_keys := [] },
        g.set_position
          ((if right then
              widthBelow g.its_slots cur + (g.its_slots.getD cur default).get_width - 1/10000
            else widthBelow g.its_slots cur) / g.get_slot_width_sum)) := by
  obtain ⟨ob, hob⟩ := Option.isSome_iff_exists.mp hcol
  simp only [List.getD_eq_getElem?_getD] at hob
  cases left <;> cases right
  · simp at hguard
  · have hL1 : ¬LEFT_KEY ∈ c.its_keys := by simpa using hL
    have hR1 : RIGHT_KEY ∈ c.its_keys := by simpa using hR
    simp [Controls.tick, GameState.get_slots, hrun, hidx, hob, hcur, hL1, hR1,
      List.getD_eq_getElem?_getD]
  · have hL1 : LEFT_KEY ∈ c.its_keys := by simpa using hL
    have hR1 : ¬RIGHT_KEY ∈ c.its_keys := by simpa using hR
    simp [Controls.tick, GameState.get_slots, hrun, hidx, hob, hcur, hL1, hR1,
      List.getD_eq_getElem?_getD]
  · simp at hguard

/-- The snapped boundary position of the current slot resolves back to the
current slot, provided widths are non-negative and the current slot is at
least as wide as the epsilon. -/
lemma snap_resolves (g : GameState) (cur : Nat) (right : Bool)
    (hcur : cur < g.its_slots.length)
    (hw : ∀ sl ∈ g.its_slots, 0 ≤ sl.its_width)
    (hwcur : 1/10000 ≤ (g.its_slots.getD cur default).get_width)
    (hsum : g.get_slot_width_sum ≠ 0) :
    g.get_slot_idx_at_position
      ((if right then
          widthBelow g.its_slots cur + (g.its_slots.getD cur default).get_width - 1/10000
        else widthBelow g.its_slots cur) / g.get_slot_width_sum) = some cur := by
  have htarget :
      (if right then
          widthBelow g.its_slots cur + (g.its_slots.getD cur default).get_width - 1/10000
        else widthBelow g.its_slots cur) / g.get_slot_width_sum * g.get_slot_width_sum =
      (if right then
          widthBelow g.its_slots cur + (g.its_slots.getD cur default).get_width - 1/10000
        else widthBelow g.its_slots cur) :=
    div_mul_cancel₀ _ hsum
  apply get_slot_idx_eq g _ cur hcur
  · rw [htarget, widthBelow_succ g.its_slots cur hcur]
    cases right
    · rw [if_neg (by simp)]
      linarith
    · rw [if_pos rfl]
      linarith
  · intro j hj
    rw [htarget]
    have hmono := widthBelow_mono g.its_slots hw (j + 1) cur (by omega) (by omega)
    cases right
    · rw [if_neg (by simp)]
      linarith
    · rw [if_pos rfl]
      linarith

/-- A tick with both movement keys held, or neither, only drains the
new-keys queue. -/
lemma tick_no_direction (c : Controls) (g : GameState) (delta : Nat)
    (h : c.its_keys.contains LEFT_KEY = c.its_keys.contains RIGHT_KEY) :
    Controls.tick c g delta = some ({ c with its_new_keys := [] }, g) := by
  simp only [Controls.tick]
  rw [h]
  cases hb : c.its_keys.contains RIGHT_KEY <;> cases hrun : g.is_running <;>
    simp [hb, hrun]

/-! ### Claim theorems -/

/-- Claim C1: during a single `TweenEngine::tick`, when the iteration reaches
an entry whose repetition count is 0, the method returns from the entire tick
immediately: the (non-exhausted) earlier entries are stepped and invoked, the
exhausted entry and every later-registered entry keep their state unchanged
and receive no effect invocation, and on every subsequent tick the suffix
starting at the exhausted entry is still left untouched. -/
theorem tween_exhausted_early_return (d : Nat) (pre : List TweenInfo)
    (ex : TweenInfo) (post : List TweenInfo)
    (hex : ex.its_repetitions = 0)
    (hpre : ∀ e ∈ pre, e.its_repetitions ≠ 0) :
    engineTick d (pre ++ ex :: post) =
      (pre.map (fun e => (tweenStep d e).1) ++ ex :: post,
        pre.map (fun e => (tweenStep d e).2)) ∧
      ∀ n, ∃ l2, (engineStates d)^[n] (pre ++ ex :: post) = l2 ++ ex :: post ∧
        l2.length = pre.length :=
  ⟨engineTick_live_front d ex post hex pre hpre,
    fun n => engineStates_iter_suffix d ex post hex n pre⟩

/-- Witness for C1: one live entry before an exhausted one, one after. -/
theorem tween_exhausted_early_return_witness :
    engineTick 7 ([TweenInfo.new 5 2 (-1)] ++ TweenInfo.new 5 2 0 :: [TweenInfo.new 5 2 3]) =
      ([TweenInfo.new 5 2 (-1)].map (fun e => (tweenStep 7 e).1) ++
          TweenInfo.new 5 2 0 :: [TweenInfo.new 5 2 3],
        [TweenInfo.new 5 2 (-1)].map (fun e => (tweenStep 7 e).2)) ∧
      ∀ n, ∃ l2, (engineStates 7)^[n]
          ([TweenInfo.new 5 2 (-1)] ++ TweenInfo.new 5 2 0 :: [TweenInfo.new 5 2 3]) =
            l2 ++ TweenInfo.new 5 2 0 :: [TweenInfo.new 5 2 3] ∧
          l2.length = [TweenInfo.new 5 2 (-1)].length :=
  tween_exhausted_early_return 7 [TweenInfo.new 5 2 (-1)] (TweenInfo.new 5 2 0)
    [TweenInfo.new 5 2 3] (by decide) (by decide)

/-- Claim C8: an entry whose single remaining repetition completes its cycle
(progress reaches duration + cooldown) has its progress reset to 0 and its
repetition count decremented to 0; an exhausted entry at the head of the list
is never stepped or invoked again, on any number of further ticks; an entry
with a negative repetition count is never decremented; and a step taken with
progress still at most the duration always invokes the effect (so the single
repetition does fire during its active window). -/
theorem tween_single_repetition_exhausts :
    (∀ (d : Nat) (st : TweenInfo), st.its_repetitions = 1 →
        st.its_duration + st.its_cooldown ≤ st.its_progress + d →
        (tweenStep d st).1.its_repetitions = 0 ∧ (tweenStep d st).1.its_progress = 0) ∧
      (∀ (d : Nat) (ex : TweenInfo) (post : List TweenInfo), ex.its_repetitions = 0 →
        engineTick d (ex :: post) = (ex :: post, []) ∧
          ∀ n, (engineStates d)^[n] (ex :: post) = ex :: post) ∧
      (∀ (d : Nat) (st : TweenInfo), st.its_repetitions < 0 →
        (tweenStep d st).1.its_repetitions = st.its_repetitions) ∧
      (∀ (d : Nat) (st : TweenInfo), st.its_progress ≤ st.its_duration →
        ((tweenStep d st).2).isSome = true) := by
  refine ⟨?_, ?_, ?_, ?_⟩
  · intro d st h1 hc
    rw [tweenStep_fst, if_pos hc]
    simp [h1]
  · intro d ex post hex
    exact ⟨engineTick_exhausted d ex hex post, engineStates_exhausted_fixed d ex post hex⟩
  · intro d st hneg
    rw [tweenStep_fst]
    split_ifs with hc hpos
    · exact absurd hpos (by omega)
    · rfl
    · rfl
  · intro d st hp
    rw [tweenStep_snd, if_pos (by omega)]
    rfl

/-- Witness for C8: each conjunct instantiated at concrete entries. -/
theorem tween_single_repetition_exhausts_witness :
    ((tweenStep 3 (⟨2, 0, 1, 1⟩ : TweenInfo)).1.its_repetitions = 0 ∧
      (tweenStep 3 (⟨2, 0, 1, 1⟩ : TweenInfo)).1.its_progress = 0) ∧
      (engineTick 3 (TweenInfo.new 2 1 0 :: [TweenInfo.new 2 1 5]) =
          (TweenInfo.new 2 1 0 :: [TweenInfo.new 2 1 5], []) ∧
        (engineStates 3)^[4] (TweenInfo.new 2 1 0 :: [TweenInfo.new 2 1 5]) =
          TweenInfo.new 2 1 0 :: [TweenInfo.new 2 1 5]) ∧
      (tweenStep 3 (⟨2, 0, 1, -1⟩ : TweenInfo)).1.its_repetitions =
        (⟨2, 0, 1, -1⟩ : TweenInfo).its_repetitions ∧
      ((tweenStep 3 (⟨7, 5, 1, 2⟩ : TweenInfo)).2).isSome = true := by
  refine ⟨?_, ⟨?_, ?_⟩, ?_, ?_⟩
  · exact tween_single_repetition_exhausts.1 3 _ (by decide) (by decide)
  · exact (tween_single_repetition_exhausts.2.1 3 _ [TweenInfo.new 2 1 5] (by decide)).1
  · exact (tween_single_repetition_exhausts.2.1 3 _ [TweenInfo.new 2 1 5] (by decide)).2 4
  · exact tween_single_repetition_exhausts.2.2.1 3 _ (by decide)
  · exact tween_single_repetition_exhausts.2.2.2 3 _ (by decide)

/-- Claim C7: for a tween entry at the start of a cycle, ticked with deltas
that never exceed its duration, with no reset before the final step and the
cycle completing at the final step, the sequence of fractions passed to the
effect is non-decreasing, attains exactly 1 at least once before the cycle
completes, and never exceeds 1 (so the sequence ends at exactly 1). -/
theorem tween_fraction_monotone_reaches_one (st : TweenInfo) (ds : List Nat)
    (hdeltas : ∀ d ∈ ds, d ≤ st.its_duration)
    (hstart : st.its_progress = 0)
    (hdur : 0 < st.its_duration / 1000)
    (hnoreset : ds.dropLast.sum < st.its_duration + st.its_cooldown)
    (hcomplete : st.its_duration + st.its_cooldown ≤ ds.sum) :
    List.Chain' (· ≤ ·) (runFracs st ds) ∧ (1 : ℚ) ∈ runFracs st ds ∧
      ∀ f ∈ runFracs st ds, f ≤ 1 := by
  have hdur1000 : 1000 ≤ st.its_duration := by
    by_contra hcon
    push_neg at hcon
    have : st.its_duration / 1000 = 0 := Nat.div_eq_of_lt (by omega)
    omega
  have hchain := (runTween_chain ds st (by rw [hstart]; omega)).1
  have hattain := runTween_attains ds st hdur (by omega) (by omega)
  exact ⟨hchain, hattain, fun f hf => runTween_le_one ds st f hf⟩

/-- Witness for C7: duration 2 s, cooldown 0, twenty deltas of 0.1 s. -/
theorem tween_fraction_monotone_reaches_one_witness :
    List.Chain' (· ≤ ·) (runFracs (TweenInfo.new 2000000000 0 (-1))
        (List.replicate 20 100000000)) ∧
      (1 : ℚ) ∈ runFracs (TweenInfo.new 2000000000 0 (-1)) (List.replicate 20 100000000) ∧
      ∀ f ∈ runFracs (TweenInfo.new 2000000000 0 (-1)) (List.replicate 20 100000000), f ≤ 1 :=
  tween_fraction_monotone_reaches_one (TweenInfo.new 2000000000 0 (-1))
    (List.replicate 20 100000000) (by decide) rfl (by decide) (by decide) (by decide)

/-- Claim C9: a tick performed while both of the movement keys are held, or
while neither is held, returns successfully and leaves the game state (in
particular the player position) unchanged; only the new-keys queue is
drained. -/
theorem tick_conflicting_or_no_input_noop (c : Controls) (g : GameState) (delta : Nat)
    (h : c.its_keys.contains LEFT_KEY = c.its_keys.contains RIGHT_KEY) :
    Controls.tick c g delta = some ({ c with its_new_keys := [] }, g) :=
  tick_no_direction c g delta h

/-- Witness for C9: no key held. -/
theorem tick_conflicting_or_no_input_noop_witness :
    Controls.tick Controls.new GameState.new 5 =
      some ({ Controls.new with its_new_keys := [] }, GameState.new) :=
  tick_conflicting_or_no_input_noop Controls.new GameState.new 5 rfl

/-- Claim C10: the only public constructor `Obstacle::new` produces an
obstacle at radial distance 0 with the given height (occupying `[0, h)`), and
with the default constants such an obstacle collides with the cursor tip
exactly when its height exceeds `CURSOR_Y + CURSOR_H`. -/
theorem obstacle_new_zero_distance_collision (h : ℚ) :
    (Obstacle.new h).get_distance = 0 ∧ (Obstacle.new h).get_height = h ∧
      (collidesCursorTip (Obstacle.new h) = true ↔ CURSOR_Y + CURSOR_H < h) := by
  refine ⟨rfl, rfl, ?_⟩
  simp [collidesCursorTip, Obstacle.new, Obstacle.get_distance, Obstacle.get_height,
    CURSOR_Y, CURSOR_H]
  norm_num

/-- Claim C4: for a game state whose six slots all have width 1,
`get_slot_idx_at_position x` returns `⌊x * 6⌋` for every `x ∈ [0,1)`, and the
returned index is one of the six valid indices — so every `x ∈ [0,1)` is
mapped to exactly one index in `[0,6)`. -/
theorem slot_idx_unit_widths_floor (g : GameState)
    (hmap : g.its_slots.map Slot.get_width = [1, 1, 1, 1, 1, 1])
    (x : ℚ) (h0 : 0 ≤ x) (h1 : x < 1) :
    g.get_slot_idx_at_position x = some (⌊x * 6⌋.toNat) ∧ ⌊x * 6⌋.toNat < 6 :=
  unit_slot_idx g hmap x h0 h1

/-- Witness for C4: the default track at position 1/3 (slot 2). -/
theorem slot_idx_unit_widths_floor_witness :
    GameState.new.get_slot_idx_at_position (1/3) = some (⌊(1/3 : ℚ) * 6⌋.toNat) ∧
      ⌊(1/3 : ℚ) * 6⌋.toNat < 6 :=
  slot_idx_unit_widths_floor GameState.new rfl (1/3) (by norm_num) (by norm_num)

/-- Claim C5: for every game state with six slots, non-negative widths and a
strictly positive width sum, and every position in `[0,1)`, the slot lookup
terminates successfully with an index strictly below 6 — the assertion
guarding against an unresolved slot is unreachable. -/
theorem slot_idx_total_in_range (g : GameState)
    (hlen : g.its_slots.length = 6)
    (hw : ∀ sl ∈ g.its_slots, 0 ≤ sl.its_width)
    (hsum : 0 < g.get_slot_width_sum)
    (pos : ℚ) (h0 : 0 ≤ pos) (h1 : pos < 1) :
    ∃ k, k < 6 ∧ g.get_slot_idx_at_position pos = some k := by
  have htarget : pos * g.get_slot_width_sum < g.get_slot_width_sum := by nlinarith
  have hfull : widthBelow g.its_slots 6 = g.get_slot_width_sum := by
    rw [slot_width_sum_eq, hlen]
  have hP5 : pos * g.get_slot_width_sum < widthBelow g.its_slots (5 + 1) := by
    rw [show 5 + 1 = 6 from rfl, hfull]
    exact htarget
  have hex : ∃ j, pos * g.get_slot_width_sum < widthBelow g.its_slots (j + 1) := ⟨5, hP5⟩
  have hkle : Nat.find hex ≤ 5 := Nat.find_le hP5
  exact ⟨Nat.find hex, by omega,
    get_slot_idx_eq g pos (Nat.find hex) (by omega) (Nat.find_spec hex)
      (fun j hj => not_lt.mp (Nat.find_min hex hj))⟩

/-- Witness for C5: the default track at position 7/10. -/
theorem slot_idx_total_in_range_witness :
    ∃ k, k < 6 ∧ GameState.new.get_slot_idx_at_position (7/10) = some k :=
  slot_idx_total_in_range GameState.new rfl
    (by
      intro sl hsl
      simp [GameState.new, Slot.new] at hsl
      rw [hsl]
      norm_num)
    (by norm_num [GameState.get_slot_width_sum, GameState.new, Slot.new, Slot.get_width])
    (7/10) (by norm_num) (by norm_num)

/-- Counterexample to claim C3: with the default game state, only the right
key held and delta = 16.7 ms (16 700 000 ns), one tick does NOT set the
position to 1/12 + 0.03: `as_millis` truncates the delta to 16 whole
milliseconds, so the effect factor is 16/16.7 rather than 1. -/
theorem default_tick_right_not_full_speed :
    (Controls.tick { its_keys := [RIGHT_KEY], its_new_keys := [] }
        GameState.new 16700000).map (fun pr => pr.2.its_player_position) ≠
      some (1/12 + 3/100) := by
  norm_num [Controls.tick, GameState.new, GameState.get_slots, GameState.is_running,
    GameState.get_position, GameState.get_player_speed, GameState.get_slot_width_sum,
    GameState.get_slot_idx_at_position, GameState.set_position, GameState.get_current_slot_idx,
    candidatePos, wrap01, effectFactor, TARGET_TICK_TIME, LEFT_KEY, RIGHT_KEY,
    Slot.new, Slot.get_width, Slot.get_obstacles, List.getD, slotWalk, List.contains]

/-- Claim C3 (amended): with the default game state, only the right key held
and delta = 16.7 ms, the tick moves the player by
`player_speed * (floor(delta_ms) / TARGET_TICK_TIME)` — the delta is
truncated to 16 whole milliseconds, so the position becomes exactly
1/12 + 0.03·(16/16.7) — and the slot index recomputed at the new position
equals the slot index before the move. -/
theorem default_tick_right_truncated_speed :
    Controls.tick { its_keys := [RIGHT_KEY], its_new_keys := [] } GameState.new 16700000 =
      some ({ its_keys := [RIGHT_KEY], its_new_keys := [] },
        GameState.new.set_position (1/12 + 3/100 * (160/167))) ∧
      (GameState.new.set_position (1/12 + 3/100 * (160/167))).get_current_slot_idx =
        GameState.new.get_current_slot_idx := by
  constructor
  · norm_num [Controls.tick, GameState.new, GameState.get_slots, GameState.is_running,
      GameState.get_position, GameState.get_player_speed, GameState.get_slot_width_sum,
      GameState.get_slot_idx_at_position, GameState.set_position, GameState.get_current_slot_idx,
      candidatePos, wrap01, effectFactor, TARGET_TICK_TIME, LEFT_KEY, RIGHT_KEY,
      Slot.new, Slot.get_width, Slot.get_obstacles, List.getD, slotWalk, List.contains]
  · norm_num [GameState.new, GameState.get_slots, GameState.get_slot_width_sum,
      GameState.get_slot_idx_at_position, GameState.set_position, GameState.get_current_slot_idx,
      Slot.new, Slot.get_width, List.getD, slotWalk]

/-- Claim C6: on the default six-unit-width-slot (obstacle-free) track, the
invariant `player_position ∈ [0,1)` is preserved by every call of
`Controls.tick`, provided the per-tick movement distance (player speed times
the effect factor) is non-negative and smaller than 1: the tick succeeds and
the committed position lies in `[0,1)`. -/
theorem tick_preserves_position_invariant (c : Controls) (g : GameState) (delta : Nat)
    (hs : g.its_slots = [Slot.new, Slot.new, Slot.new, Slot.new, Slot.new, Slot.new])
    (hp0 : 0 ≤ g.its_player_position) (hp1 : g.its_player_position < 1)
    (hsp : 0 ≤ g.its_player_speed)
    (hd : g.its_player_speed * effectFactor delta < 1) :
    ∃ c2 g2, Controls.tick c g delta = some (c2, g2) ∧
      0 ≤ g2.its_player_position ∧ g2.its_player_position < 1 := by
  have heff : 0 ≤ effectFactor delta := by
    unfold effectFactor TARGET_TICK_TIME
    positivity
  have hmd0 : 0 ≤ g.its_player_speed * effectFactor delta := mul_nonneg hsp heff
  have hmap : g.its_slots.map Slot.get_width = [1, 1, 1, 1, 1, 1] := by rw [hs]; rfl
  have hif1 : (if (false : Bool) then (-1 : ℚ) else 1) = 1 := rfl
  have hif2 : (if (true : Bool) then (-1 : ℚ) else 1) = -1 := rfl
  have hcand : ∀ left : Bool, 0 ≤ candidatePos g left delta ∧ candidatePos g left delta < 1 := by
    intro left
    unfold candidatePos
    apply wrap01_mem <;> cases left <;>
      simp only [hif1, hif2, eq_self_iff_true, if_true, Bool.false_eq_true, if_false,
        GameState.get_position, GameState.get_player_speed, mul_one, mul_neg_one] <;>
      linarith
  have hobs : ∀ k, k < 6 →
      ((g.its_slots.getD k default).get_obstacles).find? collidesCursorTip = none := by
    intro k hk
    rw [hs]
    interval_cases k <;> rfl
  cases hrun : g.is_running with
  | false =>
    exact ⟨{ c with its_new_keys := [] }, g, by simp [Controls.tick, hrun], hp0, hp1⟩
  | true =>
    cases hL : c.its_keys.contains LEFT_KEY <;> cases hR : c.its_keys.contains RIGHT_KEY
    · exact ⟨{ c with its_new_keys := [] }, g,
        tick_no_direction c g delta (by rw [hL, hR]), hp0, hp1⟩
    · obtain ⟨hidx, hlt⟩ := unit_slot_idx g hmap _ (hcand false).1 (hcand false).2
      refine ⟨{ c with its_new_keys := [] }, g.set_position (candidatePos g false delta),
        tick_commit c g delta false true hrun hL hR rfl _ hidx (hobs _ hlt), ?_, ?_⟩
      · exact (hcand false).1
      · exact (hcand false).2
    · obtain ⟨hidx, hlt⟩ := unit_slot_idx g hmap _ (hcand true).1 (hcand true).2
      refine ⟨{ c with its_new_keys := [] }, g.set_position (candidatePos g true delta),
        tick_commit c g delta true false hrun hL hR rfl _ hidx (hobs _ hlt), ?_, ?_⟩
      · exact (hcand true).1
      · exact (hcand true).2
    · exact ⟨{ c with its_new_keys := [] }, g,
        tick_no_direction c g delta (by rw [hL, hR]), hp0, hp1⟩

/-- Witness for C6: the default state moved right for one 16.7 ms tick. -/
theorem tick_preserves_position_invariant_witness :
    ∃ c2 g2, Controls.tick { its_keys := [RIGHT_KEY], its_new_keys := [] }
        GameState.new 16700000 = some (c2, g2) ∧
      0 ≤ g2.its_player_position ∧ g2.its_player_position < 1 :=
  tick_preserves_position_invariant { its_keys := [RIGHT_KEY], its_new_keys := [] }
    GameState.new 16700000 rfl (by norm_num [GameState.new]) (by norm_num [GameState.new])
    (by norm_num [GameState.new])
    (by norm_num [GameState.new, effectFactor, TARGET_TICK_TIME])

/-- Claim C2: when the game is running, exactly one of left/right is held and
the destination slot of the wrapped candidate contains an obstacle whose
interval `[distance, distance + height)` contains the cursor tip, the
candidate is rejected: the committed position is the current slot's boundary
(cumulative width of the slots before the current slot, plus the current slot
width minus the epsilon when moving right, all divided by the width sum), and
that committed position resolves back to the originating slot — never to the
obstacle's slot. -/
theorem controls_collision_snap (c : Controls) (g : GameState) (delta : Nat)
    (left right : Bool)
    (hrun : g.is_running = true)
    (hL : c.its_keys.contains LEFT_KEY = left)
    (hR : c.its_keys.contains RIGHT_KEY = right)
    (hlr : left ≠ right)
    (s : Nat)
    (hdest : g.get_slot_idx_at_position (candidatePos g left delta) = some s)
    (hcol : (((g.its_slots.getD s default).get_obstacles).find? collidesCursorTip).isSome = true)
    (cur : Nat)
    (hcur : g.get_current_slot_idx = some cur)
    (hw : ∀ sl ∈ g.its_slots, 0 ≤ sl.its_width)
    (hwcur : 1/10000 ≤ (g.its_slots.getD cur default).get_width)
    (hsum : g.get_slot_width_sum ≠ 0) :
    Controls.tick c g delta =
      some ({ c with its_new_keys := [] },
        g.set_position
          ((if right then
              widthBelow g.its_slots cur + (g.its_slots.getD cur default).get_width - 1/10000
            else widthBelow g.its_slots cur) / g.get_slot_width_sum)) ∧
      (g.set_position
          ((if right then
              widthBelow g.its_slots cur + (g.its_slots.getD cur default).get_width - 1/10000
            else widthBelow g.its_slots cur) / g.get_slot_width_sum)).get_current_slot_idx =
        some cur := by
  have hguard : ((left || right) && !(left && right)) = true := by
    cases left <;> cases right
    · exact absurd rfl hlr
    · rfl
    · rfl
    · exact absurd rfl hlr
  have hcurlt : cur < g.its_slots.length := get_slot_idx_lt g _ cur hcur
  refine ⟨tick_collision c g delta left right hrun hL hR hguard s hdest hcol cur hcur, ?_⟩
  exact snap_resolves g cur right hcurlt hw hwcur hsum

/-- Witness for C2: moving right from slot 0 into slot 1, which holds an
obstacle of height 1/20 covering the cursor tip; the snap lands just inside
the right edge of slot 0 and resolves to slot 0, not to the obstacle's
slot 1. -/
theorem controls_collision_snap_witness :
    Controls.tick { its_keys := [RIGHT_KEY], its_new_keys := [] } gCollision 16700000 =
      some ({ its_keys := [RIGHT_KEY], its_new_keys := [] },
        gCollision.set_position
          ((if true then
              widthBelow gCollision.its_slots 0 +
                (gCollision.its_slots.getD 0 default).get_width - 1/10000
            else widthBelow gCollision.its_slots 0) / gCollision.get_slot_width_sum)) ∧
      (gCollision.set_position
          ((if true then
              widthBelow gCollision.its_slots 0 +
                (gCollision.its_slots.getD 0 default).get_width - 1/10000
            else widthBelow gCollision.its_slots 0) /
            gCollision.get_slot_width_sum)).get_current_slot_idx = some 0 :=
  controls_collision_snap { its_keys := [RIGHT_KEY], its_new_keys := [] } gCollision
    16700000 false true rfl rfl rfl (by decide) 1
    (by
      norm_num [GameState.get_slot_idx_at_position, gCollision, GameState.new,
        GameState.get_slots, GameState.get_slot_width_sum, candidatePos, wrap01,
        effectFactor, TARGET_TICK_TIME, GameState.get_position, GameState.get_player_speed,
        Slot.new, Slot.get_width, Slot.add_obstacle, List.getD, slotWalk])
    (by
      norm_num [gCollision, GameState.new, Slot.new, Slot.add_obstacle, Slot.get_obstacles,
        List.getD, List.find?, collidesCursorTip, Obstacle.new, Obstacle.get_distance,
        Obstacle.get_height, CURSOR_Y, CURSOR_H])
    0
    (by
      norm_num [GameState.get_current_slot_idx, GameState.get_slot_idx_at_position,
        gCollision, GameState.new, GameState.get_slots, GameState.get_slot_width_sum,
        Slot.new, Slot.get_width, Slot.add_obstacle, List.getD, slotWalk])
    (by
      intro sl hsl
      simp only [gCollision, GameState.new] at hsl
      fin_cases hsl <;> norm_num [Slot.new, Slot.add_obstacle])
    (by norm_num [gCollision, GameState.new, Slot.new, Slot.add_obstacle, Slot.get_width,
      List.getD])
    (by
      norm_num [GameState.get_slot_width_sum, gCollision, GameState.new, Slot.new,
        Slot.add_obstacle, Slot.get_width])

end Hexagon
